import Mathlib

/-!
# Flag value types of `pkg/utils/flags.go`

A shallow embedding of the three flag value types of package `utils`
(`RegexpVal`, `StringSetVal`, `StringSliceVal`) together with the parts of the
Go standard library they call (`strings.Split`, `strings.Join`, `sort.Strings`,
the builtin `make`), followed by theorems about their behaviour.

Conventions:
* a Go `string` is a sequence of bytes;
* a nil map / nil slice is `none`, an initialised one is `some _`;
* a method with a pointer receiver returns the new receiver state next to its
  Go result;
* a run-time panic is an explicit result (`Except Panic _`).
-/

namespace utils

/-! ## Go strings -/

/-- A byte. -/
abbrev Byte := Fin 256

/-- A Go `string`: an immutable sequence of bytes.  The order on strings is the
bytewise lexicographic order, as for the Go operator `<`. -/
abbrev GoString := List Byte

/-- The bytes of an ASCII literal; used to write down concrete Go strings. -/
def ascii (s : String) : GoString :=
  s.toList.map fun c => Fin.ofNat c.toNat

/-- The byte `','` (0x2C). -/
def comma : Byte := 44

/-- A Go `error` value, observed through its `Error()` message; a nil `error`
is `none : Option GoError`. -/
structure GoError where
  /-- The text returned by `Error()`. -/
  msg : GoString
deriving DecidableEq, Repr

/-- The run-time panics that the code of this package can raise. -/
inductive Panic where
  /-- Dereference of a nil pointer. -/
  | nilDereference
  /-- `make([]T, len, cap)` with `len > cap`. -/
  | makesliceCapOutOfRange
deriving DecidableEq, Repr

end utils

/-! ## Standard library: package `strings` -/

namespace strings

open utils

/-- `strings.Split(s, sep)` for a one-byte separator (the package only ever
splits on `","`): the substrings of `s` between the occurrences of `sep`, in
order.  The result is never nil and has one element more than `s` has
separators. -/
def Split (s : GoString) (sep : Byte) : List GoString :=
  match s with
  | [] => [[]]
  | c :: cs =>
    if c = sep then [] :: Split cs sep
    else
      match Split cs sep with
      | [] => [[c]]
      | seg :: segs => (c :: seg) :: segs

/-- `strings.Join(elems, sep)`: the elements of `elems` concatenated, with `sep`
between consecutive ones; the empty string for no elements. -/
def Join (elems : List GoString) (sep : GoString) : GoString :=
  match elems with
  | [] => []
  | [e] => e
  | e :: e2 :: rest => e ++ sep ++ Join (e2 :: rest) sep

end strings

namespace utils

/-! ## `StringSliceVal` -/

/-- `type StringSliceVal []string`; `none` is the nil slice. -/
abbrev StringSliceVal := Option (List GoString)

/-- The method `func (a *StringSliceVal) Set(val string) error`: the receiver
becomes `strings.Split(val, ",")` and the result is the nil error. -/
def StringSliceVal.Set (_a : StringSliceVal) (val : GoString) :
    StringSliceVal × Option GoError :=
  (some (strings.Split val comma), none)

/-- The method `func (a *StringSliceVal) String() string`: `""` for the nil
slice, otherwise the elements joined with `","`. -/
def StringSliceVal.String (a : StringSliceVal) : GoString :=
  match a with
  | none => []
  | some elems => strings.Join elems [comma]

end utils

/-! ## Standard library: package `sort`, builtin `make`, package `fmt` -/

namespace sort

open utils

/-- `sort.Strings(x)`: the strings of `x` in increasing order.  The order is
total, so the result is the unique sorted rearrangement of `x`; it is computed
here by insertion. -/
def Strings (x : List GoString) : List GoString :=
  x.insertionSort (· ≤ ·)

end sort

namespace utils

/-- The builtin `make([]string, len, cap)`: a slice of `len` empty strings; a
run-time panic when `len > cap`. -/
def make (len cap : Nat) : Except Panic (List GoString) :=
  if len > cap then .error .makesliceCapOutOfRange
  else .ok (List.replicate len [])

end utils

namespace fmt

open utils

/-- `fmt.Errorf(format, arg)` for a format `text ++ "%s"` whose `text` holds no
verb, applied to a byte slice: the verb `%s` prints the bytes of `arg`
uninterpreted. -/
def Errorf (text : GoString) (arg : List Byte) : GoError :=
  ⟨text ++ arg⟩

end fmt

namespace utils

/-! ## `StringSetVal` -/

/-- `type StringSetVal map[string]struct{}`: a map is observed through its key
set; `none` is the nil map. -/
abbrev StringSetVal := Option (Finset GoString)

/-- The method `func (a *StringSetVal) Set(val string) error`: every segment of
`strings.Split(val, ",")` is inserted into a fresh empty map, which replaces the
receiver; the result is the nil error. -/
def StringSetVal.Set (_a : StringSetVal) (val : GoString) :
    StringSetVal × Option GoError :=
  let m : Finset GoString :=
    (strings.Split val comma).foldl (fun m n => insert n m) ∅
  (some m, none)

/-- The statements `for val := range m { vals = append(vals, val) }` followed by
`sort.Strings(vals)`.  A range loop visits the keys in an unspecified order;
the sorted result is the same for each order. -/
def StringSetVal.appendKeysSorted (vals : List GoString) (m : Finset GoString) :
    List GoString :=
  Quot.liftOn m.val (fun keys => sort.Strings (vals ++ keys)) (by
    intro k1 k2 h
    have hp : (vals ++ k1).Perm (vals ++ k2) := List.Perm.append_left vals h
    exact List.eq_of_perm_of_sorted
      (((List.perm_insertionSort _ _).trans hp).trans (List.perm_insertionSort _ _).symm)
      (List.sorted_insertionSort _ _) (List.sorted_insertionSort _ _))

/-- The method `func (a *StringSetVal) String() string`: `""` for the nil map;
otherwise `vals := make([]string, len(*a), 0)`, the keys are appended to `vals`,
`vals` is sorted and joined with `","`. -/
def StringSetVal.String (a : StringSetVal) : Except Panic GoString :=
  match a with
  | none => .ok []
  | some m =>
    match make m.card 0 with
    | .error p => .error p
    | .ok vals => .ok (strings.Join (StringSetVal.appendKeysSorted vals m) [comma])

/-! ## `RegexpVal` -/

/-- `type RegexpVal struct { regexp.Regexp }`, over the type `R` of compiled
patterns (`regexp.Regexp`). -/
structure RegexpVal (R : Type) where
  /-- The embedded `regexp.Regexp`. -/
  Regexp : R

/-- The type of `regexp.Compile`: a Go pair `(*Regexp, error)`, a nil pointer
being `none`. -/
abbrev CompileFn (R : Type) := GoString → Option R × Option GoError

/-- The method `func (a *RegexpVal) Set(val string) error`:
`r, err := regexp.Compile(val); a.Regexp = *r; return err`.  The assignment
dereferences `r` before `err` is looked at. -/
def RegexpVal.Set {R : Type} (Compile : CompileFn R) (a : RegexpVal R)
    (val : GoString) : Except Panic (RegexpVal R × Option GoError) :=
  match Compile val with
  | (r, err) =>
    match r with
    | none => .error .nilDereference
    | some re => .ok ({ a with Regexp := re }, err)

/-- The value that `json.Unmarshal` stores into an `interface{}`: nil, `bool`,
`float64` (numbers, of type `F`), `string`, `[]interface{}` or
`map[string]interface{}`. -/
inductive JSONValue (F : Type) where
  | null
  | bool (b : Bool)
  | number (f : F)
  | string (s : GoString)
  | array (elems : List (JSONValue F))
  | object (fields : List (GoString × JSONValue F))

/-- The type of `json.Unmarshal(data, &v)` for `var v interface{}`: the decoder's
error, or the decoded value left in `v`. -/
abbrev UnmarshalFn (F : Type) := List Byte → Except GoError (JSONValue F)

/-- The method `func (a *RegexpVal) UnmarshalJSON(data []byte) error`. -/
def RegexpVal.UnmarshalJSON {R F : Type} (Unmarshal : UnmarshalFn F)
    (Compile : CompileFn R) (a : RegexpVal R) (data : List Byte) :
    Except Panic (RegexpVal R × Option GoError) :=
  match Unmarshal data with
  | .error err => .ok (a, some err)
  | .ok v =>
    match v with
    | .string val =>
      match Compile val with
      | (r, err) =>
        match err with
        | some e => .ok (a, some e)
        | none =>
          match r with
          | none => .error .nilDereference
          | some re => .ok (⟨re⟩, none)
    | _ => .ok (a, some (fmt.Errorf (ascii "invalid regexp ") data))

/-! ## A small pattern engine and JSON decoder

The theorems below hold for every `regexp.Compile` and every `json.Unmarshal`.
To apply them at concrete inputs, a small instance of each is fixed here. -/

/-- A pattern engine that rejects the patterns holding the byte `'('` and
compiles every other pattern to its own text. -/
def demoCompile : CompileFn GoString := fun val =>
  if (40 : Byte) ∈ val then (none, some ⟨ascii "missing closing )"⟩)
  else (some val, none)

/-- A decoder for a fragment of JSON: the literals `null`, `true`, `false`, the
number `1`, and a string between double quotes holding neither a double quote
nor a backslash.  Everything else is rejected. -/
def demoUnmarshal : UnmarshalFn Nat := fun data =>
  let inner := (data.drop 1).dropLast
  if data = ascii "null" then .ok .null
  else if data = ascii "true" then .ok (.bool true)
  else if data = ascii "false" then .ok (.bool false)
  else if data = ascii "1" then .ok (.number 1)
  else if 2 ≤ data.length ∧ data.head? = some 34 ∧ data.getLast? = some 34 ∧
      (34 : Byte) ∉ inner ∧ (92 : Byte) ∉ inner then .ok (.string inner)
  else .error ⟨ascii "invalid character"⟩

/-- The value of a non-empty string of decimal digits; `none` for the empty
string and for a string holding another byte. -/
def digitsValue (ds : List Byte) : Option Nat :=
  if ds = [] then none
  else ds.foldl (fun acc d => acc.bind fun n =>
    if 48 ≤ d.val ∧ d.val ≤ 57 then some (10 * n + (d.val - 48)) else none) (some 0)

/-- A recogniser for a fragment of the JSON number grammar
(`number = [ minus ] int [ frac ] [ exp ]`): an `int` without leading zero,
followed or not by `e` or `E`, an optional `+` and digits.  The result is the
pair of the integer and the decimal exponent. -/
def parseNumber (data : List Byte) : Option (Nat × Nat) :=
  let isDigit : Byte → Bool := fun d => decide (48 ≤ d.val ∧ d.val ≤ 57)
  let intPart := data.takeWhile isDigit
  let rest := data.dropWhile isDigit
  if 1 < intPart.length ∧ intPart.head? = some 48 then none
  else
    match digitsValue intPart with
    | none => none
    | some m =>
      match rest with
      | [] => some (m, 0)
      | c :: ds =>
        if c = 101 ∨ c = 69 then
          (digitsValue (if ds.head? = some 43 then ds.tail else ds)).map fun e => (m, e)
        else none

/-- The decoder `demoUnmarshal` extended to the numbers of `parseNumber`.
`json.Unmarshal` converts a number with `strconv.ParseFloat(s, 64)`; a number
that rounds to a value out of the range of `float64`, that is one of at least
`2^1024 - 2^970`, is rejected with an `UnmarshalTypeError`. -/
def demoUnmarshalNumber : UnmarshalFn Nat := fun data =>
  match parseNumber data with
  | some (m, e) =>
    if 2 ^ 1024 - 2 ^ 970 ≤ m * 10 ^ e then
      .error ⟨ascii "json: cannot unmarshal number " ++ data
        ++ ascii " into Go value of type float64"⟩
    else .ok (.number (m * 10 ^ e))
  | none => demoUnmarshal data

end utils

/-! ## Lemmas on `strings.Split` and `strings.Join` -/

namespace strings

open utils

theorem Split_ne_nil (s : GoString) (sep : Byte) : Split s sep ≠ [] := by
  cases s with
  | nil => simp [Split]
  | cons c cs =>
    unfold Split
    split
    · simp
    · split <;> simp

theorem Split_cons_sep (cs : GoString) (sep : Byte) :
    Split (sep :: cs) sep = [] :: Split cs sep := by
  simp [Split]

theorem Split_cons_of_ne {c sep : Byte} (h : c ≠ sep) (cs : GoString)
    (seg : GoString) (segs : List GoString) (hcs : Split cs sep = seg :: segs) :
    Split (c :: cs) sep = (c :: seg) :: segs := by
  simp [Split, h, hcs]

/-- A string without separator is its own single segment. -/
theorem Split_of_not_mem {s : GoString} {sep : Byte} (h : sep ∉ s) :
    Split s sep = [s] := by
  induction s with
  | nil => rfl
  | cons c cs ih =>
    have hc : c ≠ sep := fun hc => h (by simp [hc])
    have hcs : sep ∉ cs := fun hm => h (List.mem_cons_of_mem _ hm)
    exact Split_cons_of_ne hc cs cs [] (ih hcs)

/-- Splitting peels off a separator-free prefix that is followed by a separator. -/
theorem Split_append_sep {x : GoString} {sep : Byte} (h : sep ∉ x) (rest : GoString) :
    Split (x ++ sep :: rest) sep = x :: Split rest sep := by
  induction x with
  | nil => exact Split_cons_sep rest sep
  | cons c cs ih =>
    have hc : c ≠ sep := fun hc => h (by simp [hc])
    have hcs : sep ∉ cs := fun hm => h (List.mem_cons_of_mem _ hm)
    exact Split_cons_of_ne hc (cs ++ sep :: rest) cs (Split rest sep) (ih hcs)

theorem Join_cons_cons (e e2 : GoString) (rest : List GoString) (sep : GoString) :
    Join (e :: e2 :: rest) sep = e ++ sep ++ Join (e2 :: rest) sep := rfl

/-- Splitting undoes joining, for a non-empty list of separator-free strings. -/
theorem Split_Join {sep : Byte} (L : List GoString) (hne : L ≠ [])
    (hfree : ∀ e ∈ L, sep ∉ e) : Split (Join L [sep]) sep = L := by
  induction L with
  | nil => exact absurd rfl hne
  | cons e rest ih =>
    cases rest with
    | nil => exact Split_of_not_mem (hfree e (by simp))
    | cons e2 rest2 =>
      have he : sep ∉ e := hfree e (by simp)
      have hrest : ∀ x ∈ e2 :: rest2, sep ∉ x :=
        fun x hx => hfree x (List.mem_cons_of_mem _ hx)
      rw [Join_cons_cons, List.append_assoc, List.singleton_append,
        Split_append_sep he, ih (by simp) hrest]

theorem Join_cons_of_ne_nil (e : GoString) {rest : List GoString} (h : rest ≠ [])
    (sep : GoString) : Join (e :: rest) sep = e ++ sep ++ Join rest sep := by
  cases rest with
  | nil => exact absurd rfl h
  | cons e2 rest2 => rfl

theorem Join_cons_head (c : Byte) (seg : GoString) (segs : List GoString)
    (sep : GoString) : Join ((c :: seg) :: segs) sep = c :: Join (seg :: segs) sep := by
  cases segs with
  | nil => rfl
  | cons e2 rest2 => rfl

/-- Joining undoes splitting, for every string. -/
theorem Join_Split (s : GoString) (sep : Byte) : Join (Split s sep) [sep] = s := by
  induction s with
  | nil => rfl
  | cons c cs ih =>
    by_cases hc : c = sep
    · subst hc
      rw [Split_cons_sep, Join_cons_of_ne_nil [] (Split_ne_nil cs c), ih]
      rfl
    · cases hs : Split cs sep with
      | nil => exact absurd hs (Split_ne_nil cs sep)
      | cons seg segs =>
        rw [Split_cons_of_ne hc cs seg segs hs, Join_cons_head, ← hs, ih]

/-- The number of segments is the number of separators plus one. -/
theorem length_Split (s : GoString) (sep : Byte) :
    (Split s sep).length = s.count sep + 1 := by
  induction s with
  | nil => rfl
  | cons c cs ih =>
    by_cases hc : c = sep
    · subst hc
      rw [Split_cons_sep, List.length_cons, ih, List.count_cons_self]
    · cases hs : Split cs sep with
      | nil => exact absurd hs (Split_ne_nil cs sep)
      | cons seg segs =>
        rw [Split_cons_of_ne hc cs seg segs hs, List.count_cons_of_ne (Ne.symm hc),
          ← ih, hs]
        rfl

/-- No segment holds the separator. -/
theorem not_mem_of_mem_Split (s : GoString) (sep : Byte) :
    ∀ e ∈ Split s sep, sep ∉ e := by
  induction s with
  | nil =>
    intro e he
    have : e = [] := by simpa [Split] using he
    subst this
    exact List.not_mem_nil sep
  | cons c cs ih =>
    by_cases hc : c = sep
    · subst hc
      rw [Split_cons_sep]
      intro e he
      rcases List.mem_cons.mp he with h | h
      · subst h
        exact List.not_mem_nil c
      · exact ih e h
    · cases hs : Split cs sep with
      | nil => exact absurd hs (Split_ne_nil cs sep)
      | cons seg segs =>
        rw [Split_cons_of_ne hc cs seg segs hs]
        rw [hs] at ih
        intro e he
        rcases List.mem_cons.mp he with h | h
        · subst h
          intro hm
          rcases List.mem_cons.mp hm with h1 | h1
          · exact hc h1.symm
          · exact ih seg (by simp) h1
        · exact ih e (List.mem_cons_of_mem _ h)

end strings

/-! ## Theorems on `StringSliceVal` -/

namespace utils

/-- C1, as stated, fails for the empty list: its elements joined with `","` are
the empty string, and `Set("")` stores the one-element sequence `[""]`, not the
empty sequence. -/
theorem StringSliceVal.Set_Join_nil_ne :
    (∀ e ∈ ([] : List GoString), comma ∉ e) ∧
    (StringSliceVal.Set none (strings.Join [] [comma])).1 = some [[]] ∧
    (StringSliceVal.Set none (strings.Join [] [comma])).1 ≠ some [] := by
  decide

/-- C1 (amended): for every non-empty list `L` of strings without a comma and
every previous receiver `a`, `Set` on the elements of `L` joined with `","`
returns the nil error and stores exactly `L`; `String` on the stored value then
returns the elements of `L`, in order, joined with `","`. -/
theorem StringSliceVal.Set_Join_roundtrip (a : StringSliceVal) (L : List GoString)
    (hne : L ≠ []) (hfree : ∀ e ∈ L, comma ∉ e) :
    StringSliceVal.Set a (strings.Join L [comma]) = (some L, none) ∧
    StringSliceVal.String (StringSliceVal.Set a (strings.Join L [comma])).1
      = strings.Join L [comma] := by
  have h : StringSliceVal.Set a (strings.Join L [comma]) = (some L, none) := by
    simp [StringSliceVal.Set, strings.Split_Join L hne hfree]
  exact ⟨h, by rw [h]; rfl⟩

/-- Witness for C1 (amended) at the list `["b", "a", "b"]` and a receiver that
held `["x"]` before. -/
theorem StringSliceVal.Set_Join_roundtrip_witness :
    StringSliceVal.Set (some [ascii "x"])
        (strings.Join [ascii "b", ascii "a", ascii "b"] [comma])
      = (some [ascii "b", ascii "a", ascii "b"], none) ∧
    StringSliceVal.String (StringSliceVal.Set (some [ascii "x"])
        (strings.Join [ascii "b", ascii "a", ascii "b"] [comma])).1
      = strings.Join [ascii "b", ascii "a", ascii "b"] [comma] :=
  StringSliceVal.Set_Join_roundtrip (some [ascii "x"])
    [ascii "b", ascii "a", ascii "b"] (by decide) (by decide)

/-- C14: for every string `s` (commas anywhere, also the empty string) and every
previous receiver `a`, `Set(s)` followed by `String()` returns exactly `s`. -/
theorem StringSliceVal.String_Set (a : StringSliceVal) (s : GoString) :
    StringSliceVal.String (StringSliceVal.Set a s).1 = s := by
  show strings.Join (strings.Split s comma) [comma] = s
  exact strings.Join_Split s comma

/-- C15: for every string `s` and every previous receiver `a`, after `Set(s)` the
stored sequence is not nil, has one element more than `s` has commas, and none
of its elements holds a comma. -/
theorem StringSliceVal.Set_shape (a : StringSliceVal) (s : GoString) :
    ∃ elems : List GoString, (StringSliceVal.Set a s).1 = some elems ∧
      elems.length = s.count comma + 1 ∧ ∀ e ∈ elems, comma ∉ e :=
  ⟨strings.Split s comma, rfl, strings.length_Split s comma,
    strings.not_mem_of_mem_Split s comma⟩

end utils

/-! ## Theorems on `StringSetVal` -/

namespace utils

/-- The keys of the map built by the loop of `StringSetVal.Set`. -/
theorem mem_foldl_insert (l : List GoString) (m0 : Finset GoString) (x : GoString) :
    x ∈ l.foldl (fun m n => insert n m) m0 ↔ x ∈ m0 ∨ x ∈ l := by
  induction l generalizing m0 with
  | nil => simp
  | cons h t ih =>
    simp only [List.foldl_cons, ih, Finset.mem_insert, List.mem_cons]
    tauto

/-- What `String` does on an initialised set: `make([]string, len(*a), 0)`
succeeds only for the empty map. -/
theorem StringSetVal.String_some (m : Finset GoString) :
    StringSetVal.String (some m)
      = if m = ∅ then .ok [] else .error .makesliceCapOutOfRange := by
  by_cases h : m = ∅
  · subst h
    rfl
  · have hc : 0 < m.card := Finset.card_pos.mpr (Finset.nonempty_iff_ne_empty.mpr h)
    simp [StringSetVal.String, make, hc, h]

/-- `Set` never leaves an empty map: the first segment of the input is a key. -/
theorem StringSetVal.Set_ne_empty (a : StringSetVal) (val : GoString) :
    (StringSetVal.Set a val).1 ≠ some ∅ := by
  intro h
  have hm : (strings.Split val comma).foldl (fun m n => insert n m) ∅
      = (∅ : Finset GoString) := by
    simpa [StringSetVal.Set] using h
  cases hs : strings.Split val comma with
  | nil => exact strings.Split_ne_nil val comma hs
  | cons seg segs =>
    have : seg ∈ (strings.Split val comma).foldl (fun m n => insert n m)
        (∅ : Finset GoString) := by
      rw [mem_foldl_insert, hs]
      simp
    rw [hm] at this
    exact absurd this (Finset.not_mem_empty seg)

/-- C2 (defect of the code): for every input `val` and every previous receiver,
`Set(val)` followed by `String()` does not return a string: the call
`make([]string, len(*a), 0)` panics, since `Set` always leaves at least one
member and the capacity is 0. -/
theorem StringSetVal.String_Set_panics (a : StringSetVal) (val : GoString) :
    StringSetVal.String (StringSetVal.Set a val).1
      = .error .makesliceCapOutOfRange := by
  have hne := StringSetVal.Set_ne_empty a val
  have hs : (StringSetVal.Set a val).1
      = some ((strings.Split val comma).foldl (fun m n => insert n m) ∅) := rfl
  rw [hs] at hne ⊢
  rw [StringSetVal.String_some, if_neg (fun h => hne (by rw [h]))]

/-- C5 (defect of the code): on an initialised set, `String()` returns the empty
string when the set is empty and panics in `make([]string, len(*a), 0)` when it
has a member; it never returns the sorted members of a non-empty set. -/
theorem StringSetVal.String_initialised (m : Finset GoString) :
    (m = ∅ → StringSetVal.String (some m) = .ok []) ∧
    (m ≠ ∅ → StringSetVal.String (some m) = .error .makesliceCapOutOfRange) := by
  rw [StringSetVal.String_some]
  exact ⟨fun h => by rw [if_pos h], fun h => by rw [if_neg h]⟩

/-- C10: for every input `val` and every previous receiver `a`, `Set` returns
the nil error and leaves an initialised set whose members are exactly the
segments of `strings.Split(val, ",")`. -/
theorem StringSetVal.Set_members (a : StringSetVal) (val : GoString) :
    (StringSetVal.Set a val).2 = none ∧
    ∃ m : Finset GoString, (StringSetVal.Set a val).1 = some m ∧
      ∀ x, x ∈ m ↔ x ∈ strings.Split val comma := by
  refine ⟨rfl, _, rfl, fun x => ?_⟩
  rw [mem_foldl_insert]
  simp

/-- C11: the nil `StringSetVal` and the nil `StringSliceVal` both render, through
`String()`, as the empty string. -/
theorem String_nil :
    StringSetVal.String none = .ok [] ∧ StringSliceVal.String none = [] :=
  ⟨rfl, rfl⟩

/-- C12: for every previous receiver `a`, `Set("")` leaves an initialised set
with exactly one member, the empty string. -/
theorem StringSetVal.Set_empty_string (a : StringSetVal) :
    ∃ m : Finset GoString, (StringSetVal.Set a (ascii "")).1 = some m ∧
      m.card = 1 ∧ ∀ x, x ∈ m ↔ x = [] :=
  ⟨insert [] ∅, rfl, by decide, fun x => by simp⟩

end utils

/-! ## Theorems on `RegexpVal` -/

namespace utils

/-- C3 (defect of the code): when `regexp.Compile(val)` rejects `val`, that is
returns `(nil, err)`, `Set(val)` does not return `err`: the assignment
`a.Regexp = *r` dereferences the nil pointer and the call panics. -/
theorem RegexpVal.Set_rejected_panics {R : Type} (Compile : CompileFn R)
    (a : RegexpVal R) (val : GoString) (e : GoError)
    (h : Compile val = (none, some e)) :
    RegexpVal.Set Compile a val = .error .nilDereference := by
  simp [RegexpVal.Set, h]

/-- Witness for C3: the pattern `(` with a receiver holding `x`. -/
theorem RegexpVal.Set_rejected_panics_witness :
    demoCompile (ascii "(") = (none, some ⟨ascii "missing closing )"⟩) ∧
    RegexpVal.Set demoCompile ⟨ascii "x"⟩ (ascii "(") = .error .nilDereference :=
  ⟨by rfl, RegexpVal.Set_rejected_panics demoCompile ⟨ascii "x"⟩ (ascii "(")
    ⟨ascii "missing closing )"⟩ (by rfl)⟩

/-- C4: when `regexp.Compile(val)` accepts `val`, that is returns `(re, nil)`,
`Set(val)` returns the nil error and the receiver holds exactly `re`, whatever
it held before. -/
theorem RegexpVal.Set_accepted {R : Type} (Compile : CompileFn R)
    (a : RegexpVal R) (val : GoString) (re : R)
    (h : Compile val = (some re, none)) :
    RegexpVal.Set Compile a val = .ok (⟨re⟩, none) := by
  simp [RegexpVal.Set, h]

/-- Witness for C4: the pattern `a.*b` with a receiver holding `x`. -/
theorem RegexpVal.Set_accepted_witness :
    demoCompile (ascii "a.*b") = (some (ascii "a.*b"), none) ∧
    RegexpVal.Set demoCompile ⟨ascii "x"⟩ (ascii "a.*b")
      = .ok (⟨ascii "a.*b"⟩, none) :=
  ⟨by rfl, RegexpVal.Set_accepted demoCompile ⟨ascii "x"⟩ (ascii "a.*b")
    (ascii "a.*b") (by rfl)⟩

set_option exponentiation.threshold 2000 in
/-- C6, as stated, fails at the input `1e400`: it is a well-formed JSON number,
so its value is not a string, yet the decoder rejects it (the number is out of
the range of `float64`) and `UnmarshalJSON` returns the decoder's error, whose
message is not `invalid regexp 1e400`. -/
theorem RegexpVal.UnmarshalJSON_number_out_of_range :
    parseNumber (ascii "1e400") = some (1, 400) ∧
    demoUnmarshalNumber (ascii "1e400") = .error
      ⟨ascii "json: cannot unmarshal number 1e400 into Go value of type float64"⟩ ∧
    RegexpVal.UnmarshalJSON demoUnmarshalNumber demoCompile ⟨ascii "x"⟩ (ascii "1e400")
      = .ok (⟨ascii "x"⟩,
        some ⟨ascii "json: cannot unmarshal number 1e400 into Go value of type float64"⟩) ∧
    (⟨ascii "json: cannot unmarshal number 1e400 into Go value of type float64"⟩ : GoError)
      ≠ ⟨ascii "invalid regexp " ++ ascii "1e400"⟩ :=
  ⟨by decide, by rfl, by rfl, by decide⟩

/-- C6 (amended): when `json.Unmarshal` decodes `data` without error to a value
that is not a string (number, boolean, array, object or null),
`UnmarshalJSON(data)` returns an error whose message is `invalid regexp `
followed by the bytes of `data`; the receiver is not changed. -/
theorem RegexpVal.UnmarshalJSON_not_string {R F : Type} (Unmarshal : UnmarshalFn F)
    (Compile : CompileFn R) (a : RegexpVal R) (data : List Byte) (v : JSONValue F)
    (hd : Unmarshal data = .ok v) (hv : ∀ s, v ≠ .string s) :
    RegexpVal.UnmarshalJSON Unmarshal Compile a data
      = .ok (a, some ⟨ascii "invalid regexp " ++ data⟩) := by
  cases v with
  | string s => exact absurd rfl (hv s)
  | _ => simp [RegexpVal.UnmarshalJSON, hd, fmt.Errorf]

/-- Witness for C6: the JSON number `1`. -/
theorem RegexpVal.UnmarshalJSON_not_string_witness :
    demoUnmarshal (ascii "1") = .ok (.number 1) ∧
    (∀ s, (JSONValue.number 1 : JSONValue Nat) ≠ .string s) ∧
    RegexpVal.UnmarshalJSON demoUnmarshal demoCompile ⟨ascii "x"⟩ (ascii "1")
      = .ok (⟨ascii "x"⟩, some ⟨ascii "invalid regexp " ++ ascii "1"⟩) :=
  ⟨by rfl, fun _ h => JSONValue.noConfusion h,
    RegexpVal.UnmarshalJSON_not_string demoUnmarshal demoCompile ⟨ascii "x"⟩
      (ascii "1") (.number 1) (by rfl) (fun _ h => JSONValue.noConfusion h)⟩

/-- C7: when `data` decodes to a JSON string `s` and `regexp.Compile(s)` returns
an error `e`, `UnmarshalJSON(data)` returns `e` and the receiver is exactly what
it was before the call. -/
theorem RegexpVal.UnmarshalJSON_rejected {R F : Type} (Unmarshal : UnmarshalFn F)
    (Compile : CompileFn R) (a : RegexpVal R) (data : List Byte) (s : GoString)
    (e : GoError) (hd : Unmarshal data = .ok (.string s))
    (hc : (Compile s).2 = some e) :
    RegexpVal.UnmarshalJSON Unmarshal Compile a data = .ok (a, some e) := by
  rcases hcs : Compile s with ⟨r, err⟩
  rw [hcs] at hc
  simp only at hc
  subst hc
  simp [RegexpVal.UnmarshalJSON, hd, hcs]

/-- Witness for C7: the JSON string `"("` with a receiver holding `x`. -/
theorem RegexpVal.UnmarshalJSON_rejected_witness :
    demoUnmarshal (ascii "\"(\"") = .ok (.string (ascii "(")) ∧
    (demoCompile (ascii "(")).2 = some ⟨ascii "missing closing )"⟩ ∧
    RegexpVal.UnmarshalJSON demoUnmarshal demoCompile ⟨ascii "x"⟩ (ascii "\"(\"")
      = .ok (⟨ascii "x"⟩, some ⟨ascii "missing closing )"⟩) :=
  ⟨by rfl, by rfl,
    RegexpVal.UnmarshalJSON_rejected demoUnmarshal demoCompile ⟨ascii "x"⟩
      (ascii "\"(\"") (ascii "(") ⟨ascii "missing closing )"⟩ (by rfl) (by rfl)⟩

/-- C8: when `data` decodes to a JSON string `s` and `regexp.Compile(s)` accepts
`s`, returning `(re, nil)`, `UnmarshalJSON(data)` returns the nil error and
leaves the receiver holding `re`, whatever it held before; this is the outcome
of `Set(s)` on any receiver. -/
theorem RegexpVal.UnmarshalJSON_accepted {R F : Type} (Unmarshal : UnmarshalFn F)
    (Compile : CompileFn R) (a b : RegexpVal R) (data : List Byte) (s : GoString)
    (re : R) (hd : Unmarshal data = .ok (.string s))
    (hc : Compile s = (some re, none)) :
    RegexpVal.UnmarshalJSON Unmarshal Compile a data = .ok (⟨re⟩, none) ∧
    RegexpVal.UnmarshalJSON Unmarshal Compile a data
      = RegexpVal.Set Compile b s := by
  simp [RegexpVal.UnmarshalJSON, RegexpVal.Set, hd, hc]

/-- Witness for C8: the JSON string `"a.*b"`, with receivers holding `x` and
`y`. -/
theorem RegexpVal.UnmarshalJSON_accepted_witness :
    demoUnmarshal (ascii "\"a.*b\"") = .ok (.string (ascii "a.*b")) ∧
    demoCompile (ascii "a.*b") = (some (ascii "a.*b"), none) ∧
    RegexpVal.UnmarshalJSON demoUnmarshal demoCompile ⟨ascii "x"⟩ (ascii "\"a.*b\"")
      = .ok (⟨ascii "a.*b"⟩, none) ∧
    RegexpVal.UnmarshalJSON demoUnmarshal demoCompile ⟨ascii "x"⟩ (ascii "\"a.*b\"")
      = RegexpVal.Set demoCompile ⟨ascii "y"⟩ (ascii "a.*b") :=
  ⟨by rfl, by rfl,
    RegexpVal.UnmarshalJSON_accepted demoUnmarshal demoCompile ⟨ascii "x"⟩
      ⟨ascii "y"⟩ (ascii "\"a.*b\"") (ascii "a.*b") (ascii "a.*b") (by rfl) (by rfl)⟩

/-- C9: when `json.Unmarshal` rejects `data` with the error `e`,
`UnmarshalJSON(data)` returns exactly `e` and leaves the receiver as it was,
whatever `regexp.Compile` is: the pattern engine plays no part in the outcome. -/
theorem RegexpVal.UnmarshalJSON_malformed {R F : Type} (Unmarshal : UnmarshalFn F)
    (a : RegexpVal R) (data : List Byte) (e : GoError)
    (hd : Unmarshal data = .error e) (Compile : CompileFn R) :
    RegexpVal.UnmarshalJSON Unmarshal Compile a data = .ok (a, some e) := by
  simp [RegexpVal.UnmarshalJSON, hd]

/-- Witness for C9: the bytes `"a.*b`, a string literal that is not closed. -/
theorem RegexpVal.UnmarshalJSON_malformed_witness :
    demoUnmarshal (ascii "\"a.*b") = .error ⟨ascii "invalid character"⟩ ∧
    RegexpVal.UnmarshalJSON demoUnmarshal demoCompile ⟨ascii "x"⟩ (ascii "\"a.*b")
      = .ok (⟨ascii "x"⟩, some ⟨ascii "invalid character"⟩) :=
  ⟨by rfl, RegexpVal.UnmarshalJSON_malformed demoUnmarshal ⟨ascii "x"⟩
    (ascii "\"a.*b") ⟨ascii "invalid character"⟩ (by rfl) demoCompile⟩

/-- C13 (defect of the code): `Set` does not report a rejected pattern.  For
every pattern engine, every pattern for which `regexp.Compile` returns
`(nil, err)` and every receiver, `a.Regexp = *r` dereferences the nil pointer
before `return err`: there is no such pattern and receiver for which `Set`
returns to its caller, with an error and a changed receiver or otherwise.  At
the pattern `(` and a receiver holding the pattern `a.*b` the call panics. -/
theorem RegexpVal.Set_rejected_never_returns :
    (¬ ∃ (R : Type) (Compile : CompileFn R) (a : RegexpVal R) (val : GoString)
        (e : GoError), Compile val = (none, some e) ∧
        ∃ (a2 : RegexpVal R) (err : Option GoError),
          RegexpVal.Set Compile a val = .ok (a2, err)) ∧
    RegexpVal.Set demoCompile ⟨ascii "a.*b"⟩ (ascii "(") = .error .nilDereference := by
  refine ⟨?_, by rfl⟩
  rintro ⟨R, Compile, a, val, e, h, a2, err, hset⟩
  simp [RegexpVal.Set, h] at hset

end utils
